import Mathlib

set_option maxRecDepth 4000

/-!
Verification of `backend/utils.py`: the percent-encoding text codec
(`encode_text_for_ai_search` / `decode_text_from_ai_search`), the response
normalizers (`format_non_streaming_response`, `format_stream_response`,
`format_pf_non_streaming_response`), the NDJSON stream formatter
(`format_as_ndjson`), the promptflow input adapter (`convert_to_pf_format`)
and the group-filter builder (`generateFilterString`).

Python strings are embedded as lists of Unicode code points (`Text`), bytes
as natural numbers below 256.  `urllib.parse.quote(text, safe="")` UTF-8
encodes the text and percent-encodes every byte outside urllib's always-safe
set; `urllib.parse.unquote` turns every maximal run of valid `%XX` escapes
into bytes and UTF-8 decodes the run with `errors="replace"` (substitution
of maximal subparts), passing all other characters through unchanged.
-/

/-- A Python `str` value: a list of Unicode code points. -/
abbrev Text := List Nat

/-- Embed a Lean string literal as a `Text` value. -/
def str (s : String) : Text := s.toList.map Char.toNat

/-- A Unicode scalar value: what a Python `str` character must be for
`text.encode("utf-8")` (inside `quote`) to succeed. -/
def ValidScalar (c : Nat) : Prop := c < 55296 ∨ (57344 ≤ c ∧ c < 1114112)

instance (c : Nat) : Decidable (ValidScalar c) := by
  unfold ValidScalar; infer_instance

/-- UTF-8 encoding of one code point (as produced by `str.encode("utf-8")`). -/
def utf8EncodeChar (c : Nat) : List Nat :=
  if c < 128 then [c]
  else if c < 2048 then [192 + c / 64, 128 + c % 64]
  else if c < 65536 then [224 + c / 4096, 128 + (c / 64) % 64, 128 + c % 64]
  else [240 + c / 262144, 128 + (c / 4096) % 64, 128 + (c / 64) % 64, 128 + c % 64]

/-- UTF-8 encoding of a whole text. -/
def utf8Encode (s : Text) : List Nat := s.flatMap utf8EncodeChar

/-- urllib's always-safe byte set (`quote`'s `safe=""` adds nothing to it):
ASCII letters, digits, and `_ . - ~`. -/
def isSafeByte (b : Nat) : Bool :=
  (65 ≤ b && b ≤ 90) || (97 ≤ b && b ≤ 122) || (48 ≤ b && b ≤ 57) ||
    b == 95 || b == 46 || b == 45 || b == 126

/-- Upper-case hexadecimal digit, as `quote` writes escapes (`%XX`). -/
def hexDigitUpper (n : Nat) : Nat := if n < 10 then 48 + n else 55 + n

/-- The three-character `%XX` escape of one byte. -/
def percentEncodeByte (b : Nat) : List Nat :=
  [37, hexDigitUpper (b / 16), hexDigitUpper (b % 16)]

/-- `urllib.parse.quote_from_bytes`: safe bytes pass through as characters,
every other byte becomes `%XX`. -/
def quoteBytes (bs : List Nat) : Text :=
  bs.flatMap fun b => if isSafeByte b then [b] else percentEncodeByte b

/-- `encode_text_for_ai_search(text)`, i.e. `quote(text, safe="")`:
percent-encode the UTF-8 bytes of `text` with no extra safe characters. -/
def encode_text_for_ai_search (text : Text) : Text := quoteBytes (utf8Encode text)

/-- Is `c` the code point of an ASCII hexadecimal digit (`0-9A-Fa-f`)? -/
def isHexDigit (c : Nat) : Bool :=
  (48 ≤ c && c ≤ 57) || (65 ≤ c && c ≤ 70) || (97 ≤ c && c ≤ 102)

/-- Numeric value of a hexadecimal digit code point. -/
def hexVal (c : Nat) : Nat :=
  if c ≤ 57 then c - 48 else if c ≤ 70 then c - 55 else c - 87

/-- Lower bound for the second byte of a three-byte UTF-8 sequence
(CPython rejects overlong forms at the second byte). -/
def cont2lo (b : Nat) : Nat := if b = 224 then 160 else 128

/-- Upper bound for the second byte of a three-byte UTF-8 sequence
(CPython rejects surrogates at the second byte). -/
def cont2hi (b : Nat) : Nat := if b = 237 then 159 else 191

/-- Lower bound for the second byte of a four-byte UTF-8 sequence. -/
def cont3lo (b : Nat) : Nat := if b = 240 then 144 else 128

/-- Upper bound for the second byte of a four-byte UTF-8 sequence
(CPython rejects code points above U+10FFFF at the second byte). -/
def cont3hi (b : Nat) : Nat := if b = 244 then 143 else 191

/-- CPython's UTF-8 decoder with `errors="replace"`: valid sequences decode
to their code point, each maximal invalid subpart becomes one U+FFFD
(65533), and decoding resumes at the offending byte. -/
def utf8DecodeReplace : List Nat → List Nat
  | [] => []
  | b :: rest =>
    if b < 128 then b :: utf8DecodeReplace rest
    else if b < 194 then 65533 :: utf8DecodeReplace rest
    else if b < 224 then
      match rest with
      | [] => [65533]
      | b1 :: rest1 =>
        if 128 ≤ b1 ∧ b1 < 192 then
          ((b - 192) * 64 + (b1 - 128)) :: utf8DecodeReplace rest1
        else 65533 :: utf8DecodeReplace (b1 :: rest1)
    else if b < 240 then
      match rest with
      | [] => [65533]
      | b1 :: rest1 =>
        if cont2lo b ≤ b1 ∧ b1 ≤ cont2hi b then
          match rest1 with
          | [] => [65533]
          | b2 :: rest2 =>
            if 128 ≤ b2 ∧ b2 < 192 then
              ((b - 224) * 4096 + (b1 - 128) * 64 + (b2 - 128)) :: utf8DecodeReplace rest2
            else 65533 :: utf8DecodeReplace (b2 :: rest2)
        else 65533 :: utf8DecodeReplace (b1 :: rest1)
    else if b < 245 then
      match rest with
      | [] => [65533]
      | b1 :: rest1 =>
        if cont3lo b ≤ b1 ∧ b1 ≤ cont3hi b then
          match rest1 with
          | [] => [65533]
          | b2 :: rest2 =>
            if 128 ≤ b2 ∧ b2 < 192 then
              match rest2 with
              | [] => [65533]
              | b3 :: rest3 =>
                if 128 ≤ b3 ∧ b3 < 192 then
                  ((b - 240) * 262144 + (b1 - 128) * 4096 + (b2 - 128) * 64 + (b3 - 128)) ::
                    utf8DecodeReplace rest3
                else 65533 :: utf8DecodeReplace (b3 :: rest3)
            else 65533 :: utf8DecodeReplace (b2 :: rest2)
        else 65533 :: utf8DecodeReplace (b1 :: rest1)
    else 65533 :: utf8DecodeReplace rest
termination_by l => l.length
decreasing_by all_goals simp_wf <;> omega

/-- The scanning loop of `urllib.parse.unquote`: `pend` holds (in reverse)
the bytes of the current maximal run of valid `%XX` escapes; hitting a
literal character (or the end) flushes the run through the replacing UTF-8
decoder.  A `%` not followed by two hex digits is a literal. -/
def unquoteAux : List Nat → List Nat → List Nat
  | pend, [] => utf8DecodeReplace pend.reverse
  | pend, c :: h1 :: h2 :: rest2 =>
    if c = 37 && isHexDigit h1 && isHexDigit h2 then
      unquoteAux ((hexVal h1 * 16 + hexVal h2) :: pend) rest2
    else utf8DecodeReplace pend.reverse ++ c :: unquoteAux [] (h1 :: h2 :: rest2)
  | pend, c :: rest => utf8DecodeReplace pend.reverse ++ c :: unquoteAux [] rest
termination_by _ l => l.length
decreasing_by all_goals simp_wf <;> omega

/-- `decode_text_from_ai_search(encoded_text)`, i.e.
`urllib.parse.unquote(encoded_text)`. -/
def decode_text_from_ai_search (encoded_text : Text) : Text :=
  unquoteAux [] encoded_text

/-- Does the text contain a valid percent-escape (`%` followed by two hex
digits) anywhere? -/
def hasEscape : List Nat → Bool
  | c :: h1 :: h2 :: rest =>
    (c == 37 && isHexDigit h1 && isHexDigit h2) || hasEscape (h1 :: h2 :: rest)
  | _ => false

/-! ## JSON values and `json.dumps` -/

/-- A JSON-serializable Python value, as handed around by the formatters. -/
inductive JValue where
  | jnull : JValue
  | jbool : Bool → JValue
  | jint : Int → JValue
  | jstr : Text → JValue
  | jarr : List JValue → JValue
  | jobj : List (Text × JValue) → JValue

/-- A Python dict with string keys, in insertion order. -/
abbrev JObj := List (Text × JValue)

/-- Decimal digits of a natural number. -/
def natToText (n : Nat) : Text := (Nat.toDigits 10 n).map Char.toNat

/-- Python's decimal rendering of an integer. -/
def intToText (n : Int) : Text :=
  if n < 0 then 45 :: natToText n.natAbs else natToText n.toNat

/-- Lower-case hexadecimal digit (as in `json.dumps`'s escapes). -/
def hexDigitLower (n : Nat) : Nat := if n < 10 then 48 + n else 87 + n

/-- Four lower-case hex digits of a number below 65536. -/
def hex4 (n : Nat) : Text :=
  [hexDigitLower (n / 4096 % 16), hexDigitLower (n / 256 % 16),
   hexDigitLower (n / 16 % 16), hexDigitLower (n % 16)]

/-- `json.dumps` escaping of one character of a string, with the default
`ensure_ascii=True` (non-ASCII becomes a backslash-u escape, astral code
points a surrogate pair). -/
def jsonEscapeChar (c : Nat) : Text :=
  if c = 34 then [92, 34]
  else if c = 92 then [92, 92]
  else if c = 10 then [92, 110]
  else if c = 13 then [92, 114]
  else if c = 9 then [92, 116]
  else if c = 8 then [92, 98]
  else if c = 12 then [92, 102]
  else if c < 32 then 92 :: 117 :: hex4 c
  else if c < 127 then [c]
  else if c < 65536 then 92 :: 117 :: hex4 c
  else
    92 :: 117 :: hex4 (55296 + (c - 65536) / 1024) ++
      92 :: 117 :: hex4 (56320 + (c - 65536) % 1024)

/-- `json.dumps` rendering of a string: quoted, with every character escaped
as needed. -/
def jsonQuote (s : Text) : Text := 34 :: s.flatMap jsonEscapeChar ++ [34]

mutual

/-- `json.dumps(v)` with its defaults (separators `", "` and `": "`,
`ensure_ascii=True`), as a list of code points. -/
def jsonDumps : JValue → Text
  | JValue.jnull => str "null"
  | JValue.jbool true => str "true"
  | JValue.jbool false => str "false"
  | JValue.jint n => intToText n
  | JValue.jstr s => jsonQuote s
  | JValue.jarr xs => 91 :: jsonDumpsList xs ++ [93]
  | JValue.jobj fields => 123 :: jsonDumpsFields fields ++ [125]

/-- Array elements, joined by `", "`. -/
def jsonDumpsList : List JValue → Text
  | [] => []
  | [x] => jsonDumps x
  | x :: y :: rest => jsonDumps x ++ 44 :: 32 :: jsonDumpsList (y :: rest)

/-- Object entries (`key: value`), joined by `", "`. -/
def jsonDumpsFields : List (Text × JValue) → Text
  | [] => []
  | [(k, v)] => jsonQuote k ++ 58 :: 32 :: jsonDumps v
  | (k, v) :: f :: rest =>
    jsonQuote k ++ 58 :: 32 :: jsonDumps v ++ 44 :: 32 :: jsonDumpsFields (f :: rest)

end

/-! ## Native chat-completion inputs and the normalized envelope -/

/-- `chatCompletion.choices[i].message`: `content` is a string attribute,
`context` an attribute that may be absent (`hasattr` probes it). -/
structure CCMessage where
  content : Text
  context : Option JValue

/-- One element of a non-streaming completion's `choices`; `message` may be
a falsy `None`. -/
structure CCChoice where
  message : Option CCMessage

/-- A non-streaming `chatCompletion` object.  The envelope header fields are
opaque pass-through values. -/
structure ChatCompletion where
  id : JValue
  model : JValue
  created : JValue
  object : JValue
  choices : List CCChoice

/-- `chunk.choices[i].delta`: `role` and `content` may be `None`,
`context` may be absent as an attribute. -/
structure ChunkDelta where
  role : Option Text
  content : Option Text
  context : Option JValue

/-- One element of a streaming chunk's `choices`; `delta` may be falsy. -/
structure ChunkChoice where
  delta : Option ChunkDelta

/-- A streaming `chatCompletionChunk` object. -/
structure ChatCompletionChunk where
  id : JValue
  model : JValue
  created : JValue
  object : JValue
  choices : List ChunkChoice

/-- The single element of the envelope's `choices` list: a dict
`{"messages": [...]}` whose messages are dicts in key-insertion order. -/
structure ChoiceMessages where
  messages : List JObj

/-- The normalized response envelope
`{"id", "model", "created", "object", "choices", "history_metadata",
"apim-request-id"}`.  A formatter that falls through returns the empty dict
`{}` instead, embedded as `none`. -/
structure ResponseEnvelope where
  id : JValue
  model : JValue
  created : JValue
  object : JValue
  choices : List ChoiceMessages
  history_metadata : JValue
  apim_request_id : JValue

/-- The `{"role": "tool", "content": decode(json.dumps(context))}` message. -/
def toolContextMessage (ctx : JValue) : JObj :=
  [(str "role", JValue.jstr (str "tool")),
   (str "content", JValue.jstr (decode_text_from_ai_search (jsonDumps ctx)))]

/-- `format_non_streaming_response(chatCompletion, history_metadata,
apim_request_id)`: build the envelope; with a first choice whose message is
present, append the decoded tool-context message (when the `context`
attribute exists) and then the decoded assistant message; otherwise return
`{}` (`none`). -/
def format_non_streaming_response (chatCompletion : ChatCompletion)
    (history_metadata : JValue) (apim_request_id : JValue) : Option ResponseEnvelope :=
  match chatCompletion.choices with
  | [] => none
  | choice :: _ =>
    match choice.message with
    | none => none
    | some message =>
      some
        { id := chatCompletion.id
          model := chatCompletion.model
          created := chatCompletion.created
          object := chatCompletion.object
          choices :=
            [⟨(match message.context with
               | some ctx => [toolContextMessage ctx]
               | none => []) ++
              [[(str "role", JValue.jstr (str "assistant")),
                (str "content",
                 JValue.jstr (decode_text_from_ai_search message.content))]]⟩]
          history_metadata := history_metadata
          apim_request_id := apim_request_id }

/-- Python truthiness of an optional string (`if delta.content:`). -/
def truthyText : Option Text → Bool
  | some t => !t.isEmpty
  | none => false

/-- `format_stream_response(chatCompletionChunk, history_metadata,
apim_request_id)`: with a first choice whose delta is present, a delta
carrying a `context` attribute yields the tool message and returns at once;
the following `delta.role == "assistant" and hasattr(delta, "context")`
branch re-probes the same attribute (the source would put the raw context
object under the key `"context"` there); otherwise a truthy `delta.content`
yields the decoded assistant message; else `{}` (`none`). -/
def format_stream_response (chatCompletionChunk : ChatCompletionChunk)
    (history_metadata : JValue) (apim_request_id : JValue) : Option ResponseEnvelope :=
  match chatCompletionChunk.choices with
  | [] => none
  | choice :: _ =>
    match choice.delta with
    | none => none
    | some delta =>
      match delta.context with
      | some ctx =>
        some
          { id := chatCompletionChunk.id
            model := chatCompletionChunk.model
            created := chatCompletionChunk.created
            object := chatCompletionChunk.object
            choices := [⟨[toolContextMessage ctx]⟩]
            history_metadata := history_metadata
            apim_request_id := apim_request_id }
      | none =>
        if delta.role = some (str "assistant") ∧ delta.context.isSome then
          some
            { id := chatCompletionChunk.id
              model := chatCompletionChunk.model
              created := chatCompletionChunk.created
              object := chatCompletionChunk.object
              choices :=
                [⟨[[(str "role", JValue.jstr (str "assistant")),
                    (str "context", JValue.jnull)]]⟩]
              history_metadata := history_metadata
              apim_request_id := apim_request_id }
        else if truthyText delta.content then
          some
            { id := chatCompletionChunk.id
              model := chatCompletionChunk.model
              created := chatCompletionChunk.created
              object := chatCompletionChunk.object
              choices :=
                [⟨[[(str "role", JValue.jstr (str "assistant")),
                    (str "content",
                     JValue.jstr
                       (decode_text_from_ai_search (delta.content.getD [])))]]⟩]
              history_metadata := history_metadata
              apim_request_id := apim_request_id }
        else none

/-! ## Promptflow formatter, NDJSON formatter, PF input adapter, filter builder -/

/-- First value under key `k` of a Python dict (`o[k]`), if any. -/
def dictFind (o : JObj) (k : Text) : Option JValue :=
  (o.find? fun p => p.1 == k).map Prod.snd

/-- `k in o` for a Python dict. -/
def dictContains (o : JObj) (k : Text) : Bool := o.any fun p => p.1 == k

/-- The fixed error message returned when the promptflow completion is
`None`. -/
def pfTimeoutMessage : Text :=
  str "No response received from promptflow endpoint. Increase PROMPTFLOW_RESPONSE_TIMEOUT parameter or check the promptflow endpoint."

/-- The `try` block of `format_pf_non_streaming_response`: `none` embeds an
exception (a non-string response value makes `unquote` raise, a missing
`"id"` key raises `KeyError`), which the `except` turns into `{}`. -/
def pfTryBody (completion : JObj) (history_metadata : JValue)
    (response_field_name citations_field_name : Text) : Option JObj :=
  (match dictFind completion response_field_name with
   | some (JValue.jstr s) =>
     some [[(str "role", JValue.jstr (str "assistant")),
            (str "content", JValue.jstr (decode_text_from_ai_search s))]]
   | some _ => none
   | none => some []).bind fun responseMessages =>
  let citationMessages :=
    match dictFind completion citations_field_name with
    | some v =>
      [[(str "role", JValue.jstr (str "tool")),
        (str "content",
         JValue.jstr
           (jsonDumps
             (JValue.jobj
               [(str "citations",
                 JValue.jstr (decode_text_from_ai_search (jsonDumps v)))])))]]
    | none => []
  (dictFind completion (str "id")).bind fun idValue =>
  some
    [(str "id", idValue),
     (str "model", JValue.jstr []),
     (str "created", JValue.jstr []),
     (str "object", JValue.jstr []),
     (str "history_metadata", history_metadata),
     (str "choices",
      JValue.jarr
        [JValue.jobj
          [(str "messages",
            JValue.jarr ((responseMessages ++ citationMessages).map JValue.jobj))]])]

set_option linter.unusedVariables false in
/-- `format_pf_non_streaming_response(chatCompletion, history_metadata,
response_field_name, citations_field_name, message_uuid=None)`: `None`
yields the fixed timeout error dict, an `"error"` key is passed through,
otherwise the envelope is built (exceptions inside the `try` degrade to
`{}`, the empty dict). -/
def format_pf_non_streaming_response (chatCompletion : Option JObj)
    (history_metadata : JValue) (response_field_name citations_field_name : Text)
    (message_uuid : Option Text) : JObj :=
  match chatCompletion with
  | none => [(str "error", JValue.jstr pfTimeoutMessage)]
  | some completion =>
    if dictContains completion (str "error") then
      [(str "error", (dictFind completion (str "error")).getD JValue.jnull)]
    else
      match pfTryBody completion history_metadata response_field_name citations_field_name with
      | some response_obj => response_obj
      | none => []

/-- The asynchronous input of `format_as_ndjson`: the events the upstream
generator yields, and, when it (or serialization) raises instead of
completing, the exception's message. -/
structure EventStream where
  events : List JValue
  failure : Option Text

/-- `format_as_ndjson(r)`: one `json.dumps(event) + "\n"` chunk per event in
input order; an exception is logged and turned into one final
`json.dumps({"error": str(error)})` chunk (note: without a trailing
newline), after which the sequence ends. -/
def format_as_ndjson (r : EventStream) : List Text :=
  r.events.map (fun event => jsonDumps event ++ [10]) ++
    match r.failure with
    | some msg => [jsonDumps (JValue.jobj [(str "error", JValue.jstr msg)])]
    | none => []

/-- One entry of the UI history handed to `convert_to_pf_format`; a falsy
entry (`if message:` fails) is embedded as `none`. -/
structure PFMessage where
  role : Text
  content : Text

/-- The `input_json` argument of `convert_to_pf_format`: a dict with a
`"messages"` list. -/
structure PFInputJson where
  messages : List (Option PFMessage)

/-- One promptflow turn: `{"inputs": {...}, "outputs": {...}}`. -/
structure PFTurn where
  inputs : List (Text × Text)
  outputs : List (Text × Text)
deriving DecidableEq

/-- Python dict assignment `o[k] = v`: replace the value in place when the
key exists, append otherwise. -/
def setDictKey (o : List (Text × Text)) (k v : Text) : List (Text × Text) :=
  if o.any (fun p => p.1 == k) then o.map fun p => if p.1 == k then (k, v) else p
  else o ++ [(k, v)]

/-- Apply `f` to the last element of a list (`output_json[-1]` mutation). -/
def updateLastTurn : List PFTurn → (PFTurn → PFTurn) → List PFTurn
  | [], _ => []
  | [t], f => [f t]
  | t :: t2 :: ts, f => t :: updateLastTurn (t2 :: ts) f

/-- The body of `convert_to_pf_format`'s loop: skip falsy entries, append
an encoded turn per user message, back-fill the last turn's output with the
decoded content of an assistant message when a turn exists. -/
def convert_pf_step (request_field_name response_field_name : Text)
    (output_json : List PFTurn) (message : Option PFMessage) : List PFTurn :=
  match message with
  | none => output_json
  | some m =>
    if m.role == str "user" then
      output_json ++
        [{ inputs := [(request_field_name, encode_text_for_ai_search m.content)],
           outputs := [(response_field_name, [])] }]
    else if m.role == str "assistant" && output_json.length > 0 then
      updateLastTurn output_json fun t =>
        { t with
          outputs :=
            setDictKey t.outputs response_field_name
              (decode_text_from_ai_search m.content) }
    else output_json

/-- `convert_to_pf_format(input_json, request_field_name,
response_field_name)`: fold the loop body over `input_json["messages"]`
starting from the empty turn list. -/
def convert_to_pf_format (input_json : PFInputJson)
    (request_field_name response_field_name : Text) : List PFTurn :=
  input_json.messages.foldl (convert_pf_step request_field_name response_field_name) []

/-- Modelled from the spec (section 4.5), for comparison with
`convert_to_pf_format`: the decoded content of the last assistant message
before the next user message (the value that back-fills the open turn). -/
def lastAssistantResponse : List (Option PFMessage) → Option Text
  | [] => none
  | none :: rest => lastAssistantResponse rest
  | some m :: rest =>
    if m.role == str "user" then none
    else if m.role == str "assistant" then
      match lastAssistantResponse rest with
      | some r => some r
      | none => some (decode_text_from_ai_search m.content)
    else lastAssistantResponse rest

/-- Modelled from the spec (section 4.5): one turn per user message in input
order, inputs holding the encoded content, outputs holding the decoded
content of the last assistant message of the turn's block (`""` when there
is none); assistant messages with no preceding user turn are dropped and
other roles are ignored. -/
def convert_to_pf_format_spec (request_field_name response_field_name : Text) :
    List (Option PFMessage) → List PFTurn
  | [] => []
  | none :: rest => convert_to_pf_format_spec request_field_name response_field_name rest
  | some m :: rest =>
    if m.role == str "user" then
      { inputs := [(request_field_name, encode_text_for_ai_search m.content)],
        outputs := [(response_field_name, (lastAssistantResponse rest).getD [])] } ::
        convert_to_pf_format_spec request_field_name response_field_name rest
    else convert_to_pf_format_spec request_field_name response_field_name rest

/-- A group object returned by the directory API; `generateFilterString`
reads its `"id"` entry. -/
structure GroupObj where
  id : Text

/-- Python `str()` of the configured column value as an f-string renders it:
the string itself, or the four characters `None` when the environment
variable is absent. -/
def pyStrOfColumn : Option Text → Text
  | some t => t
  | none => str "None"

/-- `generateFilterString`, with the already-fetched group list and the
process-wide column configuration as inputs: join the group ids with
`", "` and render the f-string
`"<column>/any(g:search.in(g, '<ids>'))"` (39 is the apostrophe). -/
def generateFilterString (permitted_groups_column : Option Text)
    (userGroups : List GroupObj) : Text :=
  pyStrOfColumn permitted_groups_column ++ str "/any(g:search.in(g, " ++
    (39 :: List.intercalate (str ", ") (userGroups.map GroupObj.id)) ++ 39 :: str "))"

/-! ## Lemmas about the UTF-8 replacing decoder -/

theorem udr_nil : utf8DecodeReplace [] = [] := by
  rw [utf8DecodeReplace.eq_def]

theorem udr_ascii (b : Nat) (t : List Nat) (h : b < 128) :
    utf8DecodeReplace (b :: t) = b :: utf8DecodeReplace t := by
  rw [utf8DecodeReplace.eq_def]
  simp [h]

theorem udr_two (b b1 : Nat) (t : List Nat) (h1 : 194 ≤ b) (h2 : b < 224)
    (h3 : 128 ≤ b1) (h4 : b1 < 192) :
    utf8DecodeReplace (b :: b1 :: t) = ((b - 192) * 64 + (b1 - 128)) :: utf8DecodeReplace t := by
  rw [utf8DecodeReplace.eq_def]
  simp [show ¬ b < 128 by omega, show ¬ b < 194 by omega, h2, h3, h4]

theorem udr_three (b b1 b2 : Nat) (t : List Nat) (h1 : 224 ≤ b) (h2 : b < 240)
    (h3 : cont2lo b ≤ b1) (h4 : b1 ≤ cont2hi b) (h5 : 128 ≤ b2) (h6 : b2 < 192) :
    utf8DecodeReplace (b :: b1 :: b2 :: t) =
      ((b - 224) * 4096 + (b1 - 128) * 64 + (b2 - 128)) :: utf8DecodeReplace t := by
  rw [utf8DecodeReplace.eq_def]
  simp [show ¬ b < 128 by omega, show ¬ b < 194 by omega, show ¬ b < 224 by omega,
    h2, h3, h4, h5, h6]

theorem udr_four (b b1 b2 b3 : Nat) (t : List Nat) (h1 : 240 ≤ b) (h2 : b < 245)
    (h3 : cont3lo b ≤ b1) (h4 : b1 ≤ cont3hi b) (h5 : 128 ≤ b2) (h6 : b2 < 192)
    (h7 : 128 ≤ b3) (h8 : b3 < 192) :
    utf8DecodeReplace (b :: b1 :: b2 :: b3 :: t) =
      ((b - 240) * 262144 + (b1 - 128) * 4096 + (b2 - 128) * 64 + (b3 - 128)) ::
        utf8DecodeReplace t := by
  rw [utf8DecodeReplace.eq_def]
  simp [show ¬ b < 128 by omega, show ¬ b < 194 by omega, show ¬ b < 224 by omega,
    show ¬ b < 240 by omega, h2, h3, h4, h5, h6, h7, h8]

/-- Decoding the UTF-8 encoding of one valid scalar, followed by anything,
yields the scalar and continues behind it. -/
theorem udr_encodeChar (c : Nat) (hc : ValidScalar c) (t : List Nat) :
    utf8DecodeReplace (utf8EncodeChar c ++ t) = c :: utf8DecodeReplace t := by
  have hv : c < 55296 ∨ (57344 ≤ c ∧ c < 1114112) := hc
  by_cases h1 : c < 128
  · rw [show utf8EncodeChar c = [c] by simp [utf8EncodeChar, h1],
      List.singleton_append, udr_ascii c t h1]
  · by_cases h2 : c < 2048
    · rw [show utf8EncodeChar c = [192 + c / 64, 128 + c % 64] by
        simp [utf8EncodeChar, h1, h2]]
      rw [List.cons_append, List.cons_append, List.nil_append,
        udr_two _ _ _ (by omega) (by omega) (by omega) (by omega)]
      congr 1
      omega
    · by_cases h3 : c < 65536
      · rw [show utf8EncodeChar c = [224 + c / 4096, 128 + (c / 64) % 64, 128 + c % 64] by
          simp [utf8EncodeChar, h1, h2, h3]]
        rw [List.cons_append, List.cons_append, List.cons_append, List.nil_append,
          udr_three _ _ _ _ (by omega) (by omega)
            (by unfold cont2lo; split <;> omega)
            (by unfold cont2hi; split <;> omega)
            (by omega) (by omega)]
        congr 1
        omega
      · rw [show utf8EncodeChar c =
            [240 + c / 262144, 128 + (c / 4096) % 64, 128 + (c / 64) % 64, 128 + c % 64] by
          simp [utf8EncodeChar, h1, h2, h3]]
        rw [List.cons_append, List.cons_append, List.cons_append, List.cons_append,
          List.nil_append,
          udr_four _ _ _ _ _ (by omega) (by omega)
            (by unfold cont3lo; split <;> omega)
            (by unfold cont3hi; split <;> omega)
            (by omega) (by omega) (by omega) (by omega)]
        congr 1
        omega

/-- Decoding the UTF-8 encoding of a valid text yields the text back. -/
theorem udr_utf8Encode (s : Text) (h : ∀ c ∈ s, ValidScalar c) :
    utf8DecodeReplace (utf8Encode s) = s := by
  induction s with
  | nil => simp [utf8Encode, udr_nil]
  | cons c s ih =>
    have hc : ValidScalar c := h c (by simp)
    have hs : ∀ x ∈ s, ValidScalar x := fun x hx => h x (by simp [hx])
    rw [show utf8Encode (c :: s) = utf8EncodeChar c ++ utf8Encode s by
      simp [utf8Encode]]
    rw [udr_encodeChar c hc, ih hs]

/-! ## Lemmas about quote / unquote -/

theorem utf8EncodeChar_lt_256 (c : Nat) (hc : c < 1114112) :
    ∀ b ∈ utf8EncodeChar c, b < 256 := by
  intro b hb
  unfold utf8EncodeChar at hb
  split_ifs at hb <;> simp at hb <;> omega

theorem utf8EncodeChar_ge_128 (c : Nat) (hc : 128 ≤ c) :
    ∀ b ∈ utf8EncodeChar c, 128 ≤ b := by
  intro b hb
  unfold utf8EncodeChar at hb
  split_ifs at hb <;> simp at hb <;> omega

theorem isSafeByte_imp (b : Nat) (h : isSafeByte b = true) : b < 128 ∧ b ≠ 37 := by
  simp [isSafeByte] at h
  omega

theorem isSafeByte_false_of_ge (b : Nat) (h : 127 ≤ b) : isSafeByte b = false := by
  simp [isSafeByte]
  omega

theorem isHexDigit_hexDigitUpper (n : Nat) (h : n < 16) :
    isHexDigit (hexDigitUpper n) = true := by
  unfold hexDigitUpper
  split <;> simp [isHexDigit] <;> omega

theorem hexVal_hexDigitUpper (n : Nat) (h : n < 16) : hexVal (hexDigitUpper n) = n := by
  unfold hexVal hexDigitUpper
  split_ifs <;> omega

theorem hex_byte_roundtrip (b : Nat) (h : b < 256) :
    hexVal (hexDigitUpper (b / 16)) * 16 + hexVal (hexDigitUpper (b % 16)) = b := by
  rw [hexVal_hexDigitUpper _ (by omega), hexVal_hexDigitUpper _ (by omega)]
  omega

theorem quoteBytes_append (a b : List Nat) :
    quoteBytes (a ++ b) = quoteBytes a ++ quoteBytes b := by
  simp [quoteBytes]

theorem quoteBytes_unsafe (bs : List Nat) (h : ∀ b ∈ bs, isSafeByte b = false) :
    quoteBytes bs = bs.flatMap percentEncodeByte := by
  induction bs with
  | nil => simp [quoteBytes]
  | cons b bs ih =>
    have hb : isSafeByte b = false := h b (by simp)
    have hbs : ∀ x ∈ bs, isSafeByte x = false := fun x hx => h x (by simp [hx])
    simp [quoteBytes, hb] at ih ⊢
    exact ih hbs

theorem uq_nil (pend : List Nat) : unquoteAux pend [] = utf8DecodeReplace pend.reverse := by
  rw [unquoteAux.eq_def]

theorem uq_escape (pend : List Nat) (h1 h2 : Nat) (rest2 : List Nat)
    (hh1 : isHexDigit h1 = true) (hh2 : isHexDigit h2 = true) :
    unquoteAux pend (37 :: h1 :: h2 :: rest2) =
      unquoteAux ((hexVal h1 * 16 + hexVal h2) :: pend) rest2 := by
  rw [unquoteAux.eq_def]
  simp [hh1, hh2]

theorem uq_literal (pend : List Nat) (c : Nat) (rest : List Nat) (h : c ≠ 37) :
    unquoteAux pend (c :: rest) =
      utf8DecodeReplace pend.reverse ++ c :: unquoteAux [] rest := by
  rcases rest with _ | ⟨d, _ | ⟨e, r⟩⟩ <;>
    · rw [unquoteAux.eq_def]
      try simp [h]

theorem uq_pct_run (bs : List Nat) (hb : ∀ b ∈ bs, b < 256) (pend rest : List Nat) :
    unquoteAux pend (bs.flatMap percentEncodeByte ++ rest) =
      unquoteAux (bs.reverse ++ pend) rest := by
  induction bs generalizing pend with
  | nil => simp
  | cons b bs ih =>
    have hb0 : b < 256 := hb b (by simp)
    have hbs : ∀ x ∈ bs, x < 256 := fun x hx => hb x (by simp [hx])
    rw [show (b :: bs).flatMap percentEncodeByte ++ rest =
        37 :: hexDigitUpper (b / 16) :: hexDigitUpper (b % 16) ::
          (bs.flatMap percentEncodeByte ++ rest) by
      simp [percentEncodeByte]]
    rw [uq_escape _ _ _ _ (isHexDigit_hexDigitUpper _ (by omega))
      (isHexDigit_hexDigitUpper _ (by omega))]
    rw [hex_byte_roundtrip b hb0, ih hbs]
    simp

/-- The central induction: decoding the encoding of a valid text, with a
pending run holding the bytes of an already-encoded valid prefix `t`,
recovers `t` followed by the text. -/
theorem uq_quote (s : Text) :
    (∀ c ∈ s, ValidScalar c) → ∀ t : Text, (∀ c ∈ t, ValidScalar c) →
      unquoteAux (utf8Encode t).reverse (encode_text_for_ai_search s) = t ++ s := by
  induction s with
  | nil =>
    intro _ t ht
    rw [show encode_text_for_ai_search [] = [] by rfl, uq_nil, List.reverse_reverse,
      udr_utf8Encode t ht, List.append_nil]
  | cons c s ih =>
    intro hs t ht
    have hc : ValidScalar c := hs c (by simp)
    have hs' : ∀ x ∈ s, ValidScalar x := fun x hx => hs x (by simp [hx])
    have hcl : c < 1114112 := by rcases hc with h | h <;> omega
    have henc : encode_text_for_ai_search (c :: s) =
        quoteBytes (utf8EncodeChar c) ++ encode_text_for_ai_search s := by
      rw [encode_text_for_ai_search, show utf8Encode (c :: s) =
        utf8EncodeChar c ++ utf8Encode s by simp [utf8Encode], quoteBytes_append]
      rfl
    by_cases hsafe : isSafeByte c = true
    · obtain ⟨hlt, hne⟩ := isSafeByte_imp c hsafe
      have hone : utf8EncodeChar c = [c] := by simp [utf8EncodeChar, hlt]
      rw [henc, hone, show quoteBytes [c] = [c] by simp [quoteBytes, hsafe],
        List.singleton_append, uq_literal _ _ _ hne, List.reverse_reverse,
        udr_utf8Encode t ht]
      have h0 := ih hs' [] (by simp)
      simp [utf8Encode] at h0
      rw [h0]
    · have hunsafe : ∀ b ∈ utf8EncodeChar c, isSafeByte b = false := by
        intro b hb
        by_cases hlt : c < 128
        · rw [show utf8EncodeChar c = [c] by simp [utf8EncodeChar, hlt]] at hb
          simp at hb
          rw [hb]
          simpa using hsafe
        · exact isSafeByte_false_of_ge b (by
            have := utf8EncodeChar_ge_128 c (by omega) b hb
            omega)
      rw [henc, quoteBytes_unsafe _ hunsafe,
        uq_pct_run _ (utf8EncodeChar_lt_256 c hcl)]
      have hpend : (utf8EncodeChar c).reverse ++ (utf8Encode t).reverse =
          (utf8Encode (t ++ [c])).reverse := by
        rw [show utf8Encode (t ++ [c]) = utf8Encode t ++ utf8EncodeChar c by
          simp [utf8Encode], List.reverse_append]
      rw [hpend, ih hs' (t ++ [c]) (by
        intro x hx
        rcases List.mem_append.1 hx with h | h
        · exact ht x h
        · simp at h
          rw [h]
          exact hc)]
      simp

/-- C1: for every text `x` of Unicode scalar values (the domain on which
`quote`'s UTF-8 encoding is defined), decoding the encoding returns `x`
exactly: `decode_text_from_ai_search (encode_text_for_ai_search x) = x`,
where the encoder percent-encodes with no extra safe characters and the
decoder is its exact inverse. -/
theorem c1_decode_encode_roundtrip (x : Text) (hx : ∀ c ∈ x, ValidScalar c) :
    decode_text_from_ai_search (encode_text_for_ai_search x) = x := by
  have h := uq_quote x hx [] (by simp)
  simpa [decode_text_from_ai_search, utf8Encode] using h

/-- Witness for C1 at a concrete mixed ASCII / two-byte / four-byte text. -/
theorem c1_decode_encode_roundtrip_witness :
    (∀ c ∈ str "a/b =?" ++ [233, 128514], ValidScalar c) ∧
      decode_text_from_ai_search
          (encode_text_for_ai_search (str "a/b =?" ++ [233, 128514])) =
        str "a/b =?" ++ [233, 128514] :=
  ⟨by decide, c1_decode_encode_roundtrip _ (by decide)⟩


/-! ## Decoding raw (unencoded) content: when is unquote the identity? -/

theorem uq_cons3_pos (pend : List Nat) (c h1 h2 : Nat) (rest2 : List Nat)
    (h : (decide (c = 37) && isHexDigit h1 && isHexDigit h2) = true) :
    unquoteAux pend (c :: h1 :: h2 :: rest2) =
      unquoteAux ((hexVal h1 * 16 + hexVal h2) :: pend) rest2 := by
  rw [unquoteAux.eq_def]
  simp [h]

theorem uq_cons3_neg (pend : List Nat) (c h1 h2 : Nat) (rest2 : List Nat)
    (h : ¬(decide (c = 37) && isHexDigit h1 && isHexDigit h2) = true) :
    unquoteAux pend (c :: h1 :: h2 :: rest2) =
      utf8DecodeReplace pend.reverse ++ c :: unquoteAux [] (h1 :: h2 :: rest2) := by
  rw [unquoteAux.eq_def]
  simp [h]

theorem uq_cons1 (pend : List Nat) (c : Nat) :
    unquoteAux pend [c] = utf8DecodeReplace pend.reverse ++ [c] := by
  rw [unquoteAux.eq_def]
  simp [uq_nil, udr_nil]

theorem uq_cons2 (pend : List Nat) (c d : Nat) :
    unquoteAux pend [c, d] =
      utf8DecodeReplace pend.reverse ++ c :: unquoteAux [] [d] := by
  rw [unquoteAux.eq_def]

theorem hasEscape_tail {c : Nat} {rest : List Nat}
    (h : hasEscape (c :: rest) = false) : hasEscape rest = false := by
  rcases rest with _ | ⟨h1, _ | ⟨h2, r⟩⟩
  · rfl
  · rfl
  · rw [hasEscape] at h
    exact (Bool.or_eq_false_iff.1 h).2

theorem uq_id_of_no_escape (l : List Nat) (h : hasEscape l = false) :
    unquoteAux [] l = l := by
  induction l with
  | nil => simp [uq_nil, udr_nil]
  | cons c rest ih =>
    have hr := hasEscape_tail h
    rcases rest with _ | ⟨h1, _ | ⟨h2, r⟩⟩
    · rw [uq_cons1]
      simp [udr_nil]
    · rw [uq_cons2]
      simp [udr_nil]
      simpa using ih hr
    · have hx : ¬(decide (c = 37) && isHexDigit h1 && isHexDigit h2) = true := by
        rw [hasEscape] at h
        have h0 := (Bool.or_eq_false_iff.1 h).1
        simp only [Bool.and_eq_false_iff, beq_eq_false_iff_ne] at h0
        simp only [Bool.and_eq_true, decide_eq_true_eq, not_and]
        intro hand
        rcases h0 with h0 | h0
        · rcases h0 with h0 | h0
          · exact absurd hand.1 h0
          · intro _
            exact absurd hand.2 (by simp [h0])
        · intro hx2
          exact absurd hx2 (by simp [h0])
      rw [uq_cons3_neg _ _ _ _ _ hx]
      simp [udr_nil]
      simpa using ih hr

theorem hasEscape_mem (l : List Nat) (h : hasEscape l = true) : 37 ∈ l := by
  induction l with
  | nil => simp [hasEscape] at h
  | cons c rest ih =>
    rcases rest with _ | ⟨h1, _ | ⟨h2, r⟩⟩
    · simp [hasEscape] at h
    · simp [hasEscape] at h
    · rw [hasEscape, Bool.or_eq_true] at h
      rcases h with h | h
      · have hc : c = 37 := by
          simp only [Bool.and_eq_true, beq_iff_eq] at h
          exact h.1.1
        simp [hc]
      · exact List.mem_cons_of_mem _ (ih h)

theorem udr_bad_low (b : Nat) (rest : List Nat) (h1 : 128 ≤ b) (h2 : b < 194) :
    utf8DecodeReplace (b :: rest) = 65533 :: utf8DecodeReplace rest := by
  rw [utf8DecodeReplace.eq_def]
  simp [show ¬ b < 128 by omega, h2]

theorem udr_bad_high (b : Nat) (rest : List Nat) (h : 245 ≤ b) :
    utf8DecodeReplace (b :: rest) = 65533 :: utf8DecodeReplace rest := by
  rw [utf8DecodeReplace.eq_def]
  simp [show ¬ b < 128 by omega, show ¬ b < 194 by omega, show ¬ b < 224 by omega,
    show ¬ b < 240 by omega, show ¬ b < 245 by omega]

theorem udr_trunc1 (b : Nat) (h1 : 194 ≤ b) (h2 : b < 245) :
    utf8DecodeReplace [b] = [65533] := by
  rw [utf8DecodeReplace.eq_def]
  simp [show ¬ b < 128 by omega, show ¬ b < 194 by omega, h2, udr_nil]

theorem udr_two_badcont (b b1 : Nat) (rest1 : List Nat) (h1 : 194 ≤ b) (h2 : b < 224)
    (h3 : ¬(128 ≤ b1 ∧ b1 < 192)) :
    utf8DecodeReplace (b :: b1 :: rest1) = 65533 :: utf8DecodeReplace (b1 :: rest1) := by
  rw [utf8DecodeReplace.eq_def]
  simp [show ¬ b < 128 by omega, show ¬ b < 194 by omega, h2, h3]

theorem udr_trunc2_3 (b b1 : Nat) (h1 : 224 ≤ b) (h2 : b < 240)
    (h3 : cont2lo b ≤ b1 ∧ b1 ≤ cont2hi b) :
    utf8DecodeReplace [b, b1] = [65533] := by
  rw [utf8DecodeReplace.eq_def]
  simp [show ¬ b < 128 by omega, show ¬ b < 194 by omega, show ¬ b < 224 by omega, h2,
    h3.1, h3.2]

theorem udr_three_badb1 (b b1 : Nat) (rest1 : List Nat) (h1 : 224 ≤ b) (h2 : b < 240)
    (h3 : ¬(cont2lo b ≤ b1 ∧ b1 ≤ cont2hi b)) :
    utf8DecodeReplace (b :: b1 :: rest1) = 65533 :: utf8DecodeReplace (b1 :: rest1) := by
  rw [utf8DecodeReplace.eq_def]
  simp [show ¬ b < 128 by omega, show ¬ b < 194 by omega, show ¬ b < 224 by omega, h2, h3]

theorem udr_three_badb2 (b b1 b2 : Nat) (rest2 : List Nat) (h1 : 224 ≤ b) (h2 : b < 240)
    (h3 : cont2lo b ≤ b1 ∧ b1 ≤ cont2hi b) (h4 : ¬(128 ≤ b2 ∧ b2 < 192)) :
    utf8DecodeReplace (b :: b1 :: b2 :: rest2) = 65533 :: utf8DecodeReplace (b2 :: rest2) := by
  rw [utf8DecodeReplace.eq_def]
  simp [show ¬ b < 128 by omega, show ¬ b < 194 by omega, show ¬ b < 224 by omega, h2,
    h3.1, h3.2, h4]

theorem udr_trunc2_4 (b b1 : Nat) (h1 : 240 ≤ b) (h2 : b < 245)
    (h3 : cont3lo b ≤ b1 ∧ b1 ≤ cont3hi b) :
    utf8DecodeReplace [b, b1] = [65533] := by
  rw [utf8DecodeReplace.eq_def]
  simp [show ¬ b < 128 by omega, show ¬ b < 194 by omega, show ¬ b < 224 by omega,
    show ¬ b < 240 by omega, h2, h3.1, h3.2]

theorem udr_trunc3_4 (b b1 b2 : Nat) (h1 : 240 ≤ b) (h2 : b < 245)
    (h3 : cont3lo b ≤ b1 ∧ b1 ≤ cont3hi b) (h4 : 128 ≤ b2 ∧ b2 < 192) :
    utf8DecodeReplace [b, b1, b2] = [65533] := by
  rw [utf8DecodeReplace.eq_def]
  simp [show ¬ b < 128 by omega, show ¬ b < 194 by omega, show ¬ b < 224 by omega,
    show ¬ b < 240 by omega, h2, h3.1, h3.2, h4.1, h4.2]

theorem udr_four_badb1 (b b1 : Nat) (rest1 : List Nat) (h1 : 240 ≤ b) (h2 : b < 245)
    (h3 : ¬(cont3lo b ≤ b1 ∧ b1 ≤ cont3hi b)) :
    utf8DecodeReplace (b :: b1 :: rest1) = 65533 :: utf8DecodeReplace (b1 :: rest1) := by
  rw [utf8DecodeReplace.eq_def]
  simp [show ¬ b < 128 by omega, show ¬ b < 194 by omega, show ¬ b < 224 by omega,
    show ¬ b < 240 by omega, h2, h3]

theorem udr_four_badb2 (b b1 b2 : Nat) (rest2 : List Nat) (h1 : 240 ≤ b) (h2 : b < 245)
    (h3 : cont3lo b ≤ b1 ∧ b1 ≤ cont3hi b) (h4 : ¬(128 ≤ b2 ∧ b2 < 192)) :
    utf8DecodeReplace (b :: b1 :: b2 :: rest2) = 65533 :: utf8DecodeReplace (b2 :: rest2) := by
  rw [utf8DecodeReplace.eq_def]
  simp [show ¬ b < 128 by omega, show ¬ b < 194 by omega, show ¬ b < 224 by omega,
    show ¬ b < 240 by omega, h2, h3.1, h3.2, h4]

theorem udr_four_badb3 (b b1 b2 b3 : Nat) (rest3 : List Nat) (h1 : 240 ≤ b) (h2 : b < 245)
    (h3 : cont3lo b ≤ b1 ∧ b1 ≤ cont3hi b) (h4 : 128 ≤ b2 ∧ b2 < 192)
    (h5 : ¬(128 ≤ b3 ∧ b3 < 192)) :
    utf8DecodeReplace (b :: b1 :: b2 :: b3 :: rest3) =
      65533 :: utf8DecodeReplace (b3 :: rest3) := by
  rw [utf8DecodeReplace.eq_def]
  simp [show ¬ b < 128 by omega, show ¬ b < 194 by omega, show ¬ b < 224 by omega,
    show ¬ b < 240 by omega, h2, h3.1, h3.2, h4.1, h4.2, h5]

theorem udr_length_le (bs : List Nat) : (utf8DecodeReplace bs).length ≤ bs.length := by
  induction bs using utf8DecodeReplace.induct with
  | case1 => simp [udr_nil]
  | case2 b rest h ih =>
    rw [udr_ascii _ _ h]
    simp only [List.length_cons]
    omega
  | case3 b rest h1 h2 ih =>
    rw [udr_bad_low _ _ (by omega) h2]
    simp only [List.length_cons]
    omega
  | case4 b h1 h2 h3 =>
    rw [udr_trunc1 _ (by omega) (by omega)]
    simp
  | case5 b h1 h2 h3 b1 rest1 hc ih =>
    rw [udr_two _ _ _ (by omega) h3 hc.1 hc.2]
    simp only [List.length_cons]
    omega
  | case6 b h1 h2 h3 b1 rest1 hc ih =>
    rw [udr_two_badcont _ _ _ (by omega) h3 hc]
    simp only [List.length_cons] at ih ⊢
    omega
  | case7 b h1 h2 h3 h4 =>
    rw [udr_trunc1 _ (by omega) (by omega)]
    simp
  | case8 b h1 h2 h3 h4 b1 hc =>
    rw [udr_trunc2_3 _ _ (by omega) h4 hc]
    simp
  | case9 b h1 h2 h3 h4 b1 hc b2 rest1 hc2 ih =>
    rw [udr_three _ _ _ _ (by omega) h4 hc.1 hc.2 hc2.1 hc2.2]
    simp only [List.length_cons]
    omega
  | case10 b h1 h2 h3 h4 b1 hc b2 rest1 hc2 ih =>
    rw [udr_three_badb2 _ _ _ _ (by omega) h4 hc hc2]
    simp only [List.length_cons] at ih ⊢
    omega
  | case11 b h1 h2 h3 h4 b1 rest1 hc ih =>
    rw [udr_three_badb1 _ _ _ (by omega) h4 hc]
    simp only [List.length_cons] at ih ⊢
    omega
  | case12 b h1 h2 h3 h4 h5 =>
    rw [udr_trunc1 _ (by omega) (by omega)]
    simp
  | case13 b h1 h2 h3 h4 h5 b1 hc =>
    rw [udr_trunc2_4 _ _ (by omega) h5 hc]
    simp
  | case14 b h1 h2 h3 h4 h5 b1 hc b2 hc2 =>
    rw [udr_trunc3_4 _ _ _ (by omega) h5 hc hc2]
    simp
  | case15 b h1 h2 h3 h4 h5 b1 hc b2 hc2 b3 rest1 hc3 ih =>
    rw [udr_four _ _ _ _ _ (by omega) h5 hc.1 hc.2 hc2.1 hc2.2 hc3.1 hc3.2]
    simp only [List.length_cons]
    omega
  | case16 b h1 h2 h3 h4 h5 b1 hc b2 hc2 b3 rest1 hc3 ih =>
    rw [udr_four_badb3 _ _ _ _ _ (by omega) h5 hc hc2 hc3]
    simp only [List.length_cons] at ih ⊢
    omega
  | case17 b h1 h2 h3 h4 h5 b1 hc b2 rest1 hc2 ih =>
    rw [udr_four_badb2 _ _ _ _ (by omega) h5 hc hc2]
    simp only [List.length_cons] at ih ⊢
    omega
  | case18 b h1 h2 h3 h4 h5 b1 rest1 hc ih =>
    rw [udr_four_badb1 _ _ _ (by omega) h5 hc]
    simp only [List.length_cons] at ih ⊢
    omega
  | case19 b rest h1 h2 h3 h4 h5 ih =>
    rw [udr_bad_high _ _ (by omega)]
    simp only [List.length_cons]
    omega

theorem uq_length_le (pend l : List Nat) :
    (unquoteAux pend l).length ≤ pend.length + l.length := by
  induction pend, l using unquoteAux.induct with
  | case1 pend =>
    rw [uq_nil]
    have h := udr_length_le pend.reverse
    simpa using h
  | case2 pend c h1 h2 rest2 hcond ih =>
    rw [uq_cons3_pos _ _ _ _ _ hcond]
    simp only [List.length_cons] at ih ⊢
    omega
  | case3 pend c h1 h2 rest2 hcond ih =>
    rw [uq_cons3_neg _ _ _ _ _ hcond]
    have h := udr_length_le pend.reverse
    simp only [List.length_reverse] at h
    simp only [List.length_append, List.length_cons, List.length_nil] at ih ⊢
    omega
  | case4 pend c rest hshape ih =>
    rcases rest with _ | ⟨d, _ | ⟨e, r⟩⟩
    · rw [uq_cons1]
      have h := udr_length_le pend.reverse
      simp only [List.length_reverse] at h
      simp
      omega
    · rw [uq_cons2]
      have h := udr_length_le pend.reverse
      simp only [List.length_reverse] at h
      simp only [List.length_append, List.length_cons, List.length_nil] at ih ⊢
      omega
    · exact (hshape d e r rfl).elim

theorem uq_length_lt (pend l : List Nat) (h : hasEscape l = true) :
    (unquoteAux pend l).length < pend.length + l.length := by
  induction pend, l using unquoteAux.induct with
  | case1 pend => simp [hasEscape] at h
  | case2 pend c h1 h2 rest2 hcond ih =>
    rw [uq_cons3_pos _ _ _ _ _ hcond]
    have hle := uq_length_le ((hexVal h1 * 16 + hexVal h2) :: pend) rest2
    simp only [List.length_cons] at hle ⊢
    omega
  | case3 pend c h1 h2 rest2 hcond ih =>
    rw [uq_cons3_neg _ _ _ _ _ hcond]
    have hr : hasEscape (h1 :: h2 :: rest2) = true := by
      rw [hasEscape, Bool.or_eq_true] at h
      rcases h with h | h
      · exfalso
        apply hcond
        simp only [Bool.and_eq_true, beq_iff_eq] at h
        simp [h.1.1, h.1.2, h.2]
      · exact h
    have hlt := ih hr
    have hudr := udr_length_le pend.reverse
    simp only [List.length_reverse] at hudr
    simp only [List.length_append, List.length_cons, List.length_nil] at hlt ⊢
    omega
  | case4 pend c rest hshape ih =>
    rcases rest with _ | ⟨d, _ | ⟨e, r⟩⟩
    · simp [hasEscape] at h
    · simp [hasEscape] at h
    · exact (hshape d e r rfl).elim

/-- C10: `decode_text_from_ai_search` is the identity on every text without
a `%` character (37), but it alters some text carrying a `%XX` escape that
`encode_text_for_ai_search` never produces (`"%41"`, the escape of the safe
byte `A`, decodes to `"A"`); in general it preserves a text exactly when
the text contains no percent-escape sequence. -/
theorem c10_decode_identity_iff_no_escape :
    (∀ s : Text, (37 : Nat) ∉ s → decode_text_from_ai_search s = s) ∧
    decode_text_from_ai_search (str "%41") ≠ str "%41" ∧
    (∀ s : Text, decode_text_from_ai_search s = s ↔ hasEscape s = false) := by
  have hiff : ∀ s : Text, decode_text_from_ai_search s = s ↔ hasEscape s = false := by
    intro s
    constructor
    · intro hid
      by_contra hne
      have htrue : hasEscape s = true := by
        cases hx : hasEscape s
        · exact absurd hx hne
        · rfl
      have hlt := uq_length_lt [] s htrue
      rw [show unquoteAux [] s = decode_text_from_ai_search s from rfl, hid] at hlt
      simp at hlt
    · intro hfalse
      exact uq_id_of_no_escape s hfalse
  have h41 : decode_text_from_ai_search (str "%41") = [65] := by
    rw [decode_text_from_ai_search, show str "%41" = [37, 52, 49] from by decide,
      uq_cons3_pos _ _ _ _ _ (by decide),
      show hexVal 52 * 16 + hexVal 49 = 65 from by decide, uq_nil,
      show ([65] : List Nat).reverse = [65] from rfl, udr_ascii 65 [] (by omega), udr_nil]
  refine ⟨?_, by rw [h41]; decide, hiff⟩
  intro s hmem
  apply (hiff s).2
  cases hx : hasEscape s
  · rfl
  · exact absurd (hasEscape_mem s hx) hmem

/-- Witness for C10's universally quantified part at a concrete
percent-free text. -/
theorem c10_decode_identity_witness :
    (37 : Nat) ∉ str "abc def" ∧
      decode_text_from_ai_search (str "abc def") = str "abc def" :=
  ⟨by decide, c10_decode_identity_iff_no_escape.1 (str "abc def") (by decide)⟩

/-! ## Claims about the native response formatters -/

/-- C2: for every completion whose choices list is non-empty and whose
first choice's message is present, the envelope's single choice carries
exactly the tool message `{role: tool, content: decode(json.dumps(context))}`
followed by the assistant message `{role: assistant, content:
decode(content)}` when the message has a `context` attribute, and only the
assistant message otherwise. -/
theorem c2_format_non_streaming_messages (chatCompletion : ChatCompletion)
    (history_metadata apim_request_id : JValue) (choice : CCChoice)
    (rest : List CCChoice) (message : CCMessage)
    (hch : chatCompletion.choices = choice :: rest)
    (hmsg : choice.message = some message) :
    format_non_streaming_response chatCompletion history_metadata apim_request_id =
      some
        { id := chatCompletion.id
          model := chatCompletion.model
          created := chatCompletion.created
          object := chatCompletion.object
          choices :=
            [⟨match message.context with
              | some ctx =>
                [[(str "role", JValue.jstr (str "tool")),
                  (str "content",
                   JValue.jstr (decode_text_from_ai_search (jsonDumps ctx)))],
                 [(str "role", JValue.jstr (str "assistant")),
                  (str "content",
                   JValue.jstr (decode_text_from_ai_search message.content))]]
              | none =>
                [[(str "role", JValue.jstr (str "assistant")),
                  (str "content",
                   JValue.jstr (decode_text_from_ai_search message.content))]]⟩]
          history_metadata := history_metadata
          apim_request_id := apim_request_id } := by
  cases hctx : message.context with
  | some ctx =>
    simp [format_non_streaming_response, hch, hmsg, hctx, toolContextMessage]
  | none =>
    simp [format_non_streaming_response, hch, hmsg, hctx]

/-- Witness for C2 at a concrete completion carrying a context. -/
theorem c2_format_non_streaming_messages_witness :
    format_non_streaming_response
        { id := JValue.jnull, model := JValue.jnull, created := JValue.jnull,
          object := JValue.jnull,
          choices :=
            [{ message :=
                some { content := str "A/B",
                       context := some (JValue.jarr [JValue.jint 1]) } }] }
        JValue.jnull JValue.jnull =
      some
        { id := JValue.jnull, model := JValue.jnull, created := JValue.jnull,
          object := JValue.jnull,
          choices :=
            [⟨[[(str "role", JValue.jstr (str "tool")),
                (str "content",
                 JValue.jstr
                   (decode_text_from_ai_search (jsonDumps (JValue.jarr [JValue.jint 1]))))],
               [(str "role", JValue.jstr (str "assistant")),
                (str "content", JValue.jstr (decode_text_from_ai_search (str "A/B")))]]⟩]
          history_metadata := JValue.jnull
          apim_request_id := JValue.jnull } :=
  c2_format_non_streaming_messages _ _ _ _ _ _ rfl rfl

/-- C3: the streaming formatter's `delta.role == "assistant" and
hasattr(delta, "context")` branch is unreachable, because a delta with a
`context` attribute is consumed by the earlier tool branch that returns at
once: no produced envelope ever contains a message with the key
`"context"`. -/
theorem c3_stream_no_context_key (chatCompletionChunk : ChatCompletionChunk)
    (history_metadata apim_request_id : JValue) (env : ResponseEnvelope)
    (hres : format_stream_response chatCompletionChunk history_metadata apim_request_id =
      some env) :
    ∀ cm ∈ env.choices, ∀ m ∈ cm.messages, ∀ kv ∈ m, kv.1 ≠ str "context" := by
  cases hcc : chatCompletionChunk.choices with
  | nil => simp [format_stream_response, hcc] at hres
  | cons choice restChoices =>
    cases hd : choice.delta with
    | none => simp [format_stream_response, hcc, hd] at hres
    | some delta =>
      cases hctx : delta.context with
      | some ctx =>
        simp [format_stream_response, hcc, hd, hctx, toolContextMessage] at hres
        subst hres
        intro cm hcm m hm kv hkv
        simp [toolContextMessage] at hcm
        subst hcm
        simp at hm
        subst hm
        simp [toolContextMessage] at hkv
        have hrole : str "role" ≠ str "context" := by decide
        have hcontent : str "content" ≠ str "context" := by decide
        rcases hkv with hkv | hkv
        · subst hkv
          exact hrole
        · subst hkv
          exact hcontent
      | none =>
        cases htr : truthyText delta.content with
        | false => simp [format_stream_response, hcc, hd, hctx, htr] at hres
        | true =>
          simp [format_stream_response, hcc, hd, hctx, htr] at hres
          subst hres
          intro cm hcm m hm kv hkv
          simp at hcm
          subst hcm
          simp at hm
          subst hm
          simp at hkv
          have hrole : str "role" ≠ str "context" := by decide
          have hcontent : str "content" ≠ str "context" := by decide
          rcases hkv with hkv | hkv
          · subst hkv
            exact hrole
          · subst hkv
            exact hcontent

/-- Witness for C3 at a concrete chunk whose delta carries a context: the
role entry of the produced tool message does not use the key `context`. -/
theorem c3_stream_no_context_key_witness :
    ((str "role", JValue.jstr (str "tool")) : Text × JValue).1 ≠ str "context" :=
  c3_stream_no_context_key
    { id := JValue.jnull, model := JValue.jnull, created := JValue.jnull,
      object := JValue.jnull,
      choices := [{ delta := some { role := some (str "assistant"),
                                    content := some (str "x"),
                                    context := some (JValue.jint 1) } }] }
    JValue.jnull JValue.jnull
    { id := JValue.jnull, model := JValue.jnull, created := JValue.jnull,
      object := JValue.jnull,
      choices := [⟨[toolContextMessage (JValue.jint 1)]⟩],
      history_metadata := JValue.jnull,
      apim_request_id := JValue.jnull } rfl
    ⟨[toolContextMessage (JValue.jint 1)]⟩ (by simp)
    (toolContextMessage (JValue.jint 1)) (by simp)
    (str "role", JValue.jstr (str "tool")) (by simp [toolContextMessage])

/-- C4: a chunk whose first delta is `{content: "hi", role: "assistant"}`
with no context yields exactly one `{role: assistant, content: "hi"}`
message; and any chunk whose delta has falsy content and no context, or no
delta, or no choices, yields the empty object. -/
theorem c4_stream_basic_and_fallthrough :
    (∀ (id model created object : JValue) (hm rid : JValue),
      format_stream_response
          { id := id, model := model, created := created, object := object,
            choices :=
              [{ delta := some { role := some (str "assistant"),
                                 content := some (str "hi"), context := none } }] }
          hm rid =
        some
          { id := id, model := model, created := created, object := object,
            choices :=
              [⟨[[(str "role", JValue.jstr (str "assistant")),
                  (str "content", JValue.jstr (str "hi"))]]⟩],
            history_metadata := hm, apim_request_id := rid }) ∧
    (∀ (chunk : ChatCompletionChunk) (hm rid : JValue),
      (chunk.choices = [] ∨
        ∃ choice restChoices, chunk.choices = choice :: restChoices ∧
          (choice.delta = none ∨
            ∃ delta, choice.delta = some delta ∧ delta.context = none ∧
              truthyText delta.content = false)) →
      format_stream_response chunk hm rid = none) := by
  constructor
  · intro id model created object hm rid
    have hdec : decode_text_from_ai_search (str "hi") = str "hi" :=
      uq_id_of_no_escape _ (by decide)
    simp [format_stream_response, truthyText, hdec]
    decide
  · intro chunk hm rid h
    rcases h with h | ⟨choice, restChoices, hch, h⟩
    · simp [format_stream_response, h]
    · rcases h with h | ⟨delta, hd, hctx, htr⟩
      · simp [format_stream_response, hch, h]
      · simp [format_stream_response, hch, hd, hctx, htr]

/-- Witness for C4's fall-through part at a concrete empty-content chunk. -/
theorem c4_stream_fallthrough_witness :
    format_stream_response
        { id := JValue.jnull, model := JValue.jnull, created := JValue.jnull,
          object := JValue.jnull,
          choices := [{ delta := some { role := some (str "assistant"),
                                        content := some [], context := none } }] }
        JValue.jnull JValue.jnull = none :=
  c4_stream_basic_and_fallthrough.2 _ _ _
    (Or.inr ⟨_, _, rfl, Or.inr ⟨_, rfl, rfl, rfl⟩⟩)

/-! ## The PF input adapter agrees with its specification -/

theorem updateLastTurn_comp (l : List PFTurn) (f g : PFTurn → PFTurn) :
    updateLastTurn (updateLastTurn l f) g = updateLastTurn l (fun t => g (f t)) := by
  induction l with
  | nil => rfl
  | cons t ts ih =>
    cases ts with
    | nil => rfl
    | cons t2 ts2 =>
      obtain ⟨b, bs, hX⟩ : ∃ b bs, updateLastTurn (t2 :: ts2) f = b :: bs := by
        cases ts2 with
        | nil => exact ⟨f t2, [], rfl⟩
        | cons t3 ts3 => exact ⟨t2, updateLastTurn (t3 :: ts3) f, rfl⟩
      show updateLastTurn (t :: updateLastTurn (t2 :: ts2) f) g =
        t :: updateLastTurn (t2 :: ts2) fun u => g (f u)
      rw [hX]
      show t :: updateLastTurn (b :: bs) g = t :: updateLastTurn (t2 :: ts2) fun u => g (f u)
      rw [← hX, ih]

theorem updateLastTurn_append_single (l : List PFTurn) (t : PFTurn) (f : PFTurn → PFTurn) :
    updateLastTurn (l ++ [t]) f = l ++ [f t] := by
  induction l with
  | nil => rfl
  | cons a l ih =>
    cases h : l ++ [t] with
    | nil => exact absurd h (by simp)
    | cons b bs =>
      show updateLastTurn (a :: (l ++ [t])) f = a :: (l ++ [f t])
      rw [h]
      show a :: updateLastTurn (b :: bs) f = a :: (l ++ [f t])
      rw [← h, ih]

theorem setDictKey_keys (o : List (Text × Text)) (k v : Text) :
    (o.map fun p => if p.1 == k then (k, v) else p).any (fun p => p.1 == k) =
      o.any (fun p => p.1 == k) := by
  induction o with
  | nil => rfl
  | cons p o ih =>
    simp only [List.map_cons, List.any_cons, ih]
    cases hp : p.1 == k with
    | true =>
      have hpk : p.1 = k := by simpa using hp
      simp [hpk]
    | false =>
      have hpk : ¬ p.1 = k := by simpa using hp
      simp [hpk, hp]

theorem setDictKey_overwrite (o : List (Text × Text)) (k v w : Text) :
    setDictKey (setDictKey o k v) k w = setDictKey o k w := by
  by_cases h : (o.any fun p => p.1 == k) = true
  · have hv : setDictKey o k v = o.map fun p => if p.1 == k then (k, v) else p := by
      rw [setDictKey, if_pos h]
    have hw : setDictKey o k w = o.map fun p => if p.1 == k then (k, w) else p := by
      rw [setDictKey, if_pos h]
    have hany : ((o.map fun p => if p.1 == k then (k, v) else p).any
        fun p => p.1 == k) = true := by
      rw [setDictKey_keys]
      exact h
    rw [hv, hw, setDictKey, if_pos hany, List.map_map]
    apply List.map_congr_left
    intro p _
    by_cases hp : (p.1 == k) = true
    · have hpk : p.1 = k := by simpa using hp
      simp [Function.comp, hpk]
    · have hpk : ¬ p.1 = k := by simpa using hp
      simp [Function.comp, hpk]
  · have hv : setDictKey o k v = o ++ [(k, v)] := by rw [setDictKey, if_neg h]
    have hw : setDictKey o k w = o ++ [(k, w)] := by rw [setDictKey, if_neg h]
    have hany : ((o ++ [(k, v)]).any fun p => p.1 == k) = true := by simp
    have hfalse : ∀ p ∈ o, (p.1 == k) = false := by
      intro p hp
      cases hx : p.1 == k with
      | false => rfl
      | true =>
        exfalso
        apply h
        exact List.any_eq_true.2 ⟨p, hp, hx⟩
    rw [hv, hw, setDictKey, if_pos hany, List.map_append]
    congr 1
    · calc (o.map fun p => if p.1 == k then (k, w) else p) = o.map id := by
            apply List.map_congr_left
            intro p hp
            simp [hfalse p hp]
          _ = o := List.map_id o
    · simp

/-- The fold invariant: running the loop from any accumulator applies the
pending assistant back-fill (when the remaining messages start with one
before the next user message) to the accumulator's last turn and then
appends the turns of the remaining messages. -/
theorem convert_pf_fold_invariant (request_field_name response_field_name : Text)
    (msgs : List (Option PFMessage)) :
    ∀ acc : List PFTurn,
      msgs.foldl (convert_pf_step request_field_name response_field_name) acc =
        (match lastAssistantResponse msgs with
         | some r =>
           updateLastTurn acc fun t =>
             { t with outputs := setDictKey t.outputs response_field_name r }
         | none => acc) ++
          convert_to_pf_format_spec request_field_name response_field_name msgs := by
  induction msgs with
  | nil =>
    intro acc
    simp [lastAssistantResponse, convert_to_pf_format_spec]
  | cons msg rest ih =>
    intro acc
    rcases msg with _ | m
    · rw [List.foldl_cons, show convert_pf_step request_field_name response_field_name acc
        none = acc from rfl, ih]
      simp [lastAssistantResponse, convert_to_pf_format_spec]
    · by_cases hu : (m.role == str "user") = true
      · rw [List.foldl_cons, show convert_pf_step request_field_name response_field_name acc
          (some m) = acc ++
            [{ inputs := [(request_field_name, encode_text_for_ai_search m.content)],
               outputs := [(response_field_name, [])] }] from by
          simp [convert_pf_step, hu]]
        rw [ih]
        simp only [lastAssistantResponse, convert_to_pf_format_spec, hu, if_pos]
        cases hla : lastAssistantResponse rest with
        | none => simp
        | some r =>
          simp only [updateLastTurn_append_single]
          simp [setDictKey]
      · by_cases ha : (m.role == str "assistant") = true
        · have hstep : convert_pf_step request_field_name response_field_name acc (some m) =
              updateLastTurn acc fun t =>
                { t with
                  outputs :=
                    setDictKey t.outputs response_field_name
                      (decode_text_from_ai_search m.content) } := by
            cases acc with
            | nil => simp [convert_pf_step, hu, ha, updateLastTurn]
            | cons a acc' => simp [convert_pf_step, hu, ha]
          rw [List.foldl_cons, hstep, ih]
          simp only [lastAssistantResponse, convert_to_pf_format_spec, hu, ha,
            if_neg, if_pos, Bool.not_eq_true]
          cases hla : lastAssistantResponse rest with
          | none => simp [hu]
          | some r =>
            simp [hu]
            rw [updateLastTurn_comp]
            congr 1
            funext t
            simp [setDictKey_overwrite]
        · rw [List.foldl_cons, show convert_pf_step request_field_name response_field_name acc
            (some m) = acc from by simp [convert_pf_step, hu, ha], ih]
          simp [lastAssistantResponse, convert_to_pf_format_spec, hu, ha]

/-- C5: `convert_to_pf_format` produces exactly the turns its specification
describes: one turn per user message in input order with the encoded
content under the request field, the most recent turn's output back-filled
with the decoded content of each following assistant message (so it ends as
the last assistant message of the block, or `""`), orphan assistant
messages dropped and other roles ignored. -/
theorem c5_convert_to_pf_format_matches_spec (input_json : PFInputJson)
    (request_field_name response_field_name : Text) :
    convert_to_pf_format input_json request_field_name response_field_name =
      convert_to_pf_format_spec request_field_name response_field_name
        input_json.messages := by
  rw [convert_to_pf_format, convert_pf_fold_invariant]
  cases h : lastAssistantResponse input_json.messages <;> simp [updateLastTurn]

/-! ## Promptflow error sentinel, NDJSON protocol, filter string -/

/-- C6: with a `None` completion the promptflow formatter returns a dict
whose only key is `"error"`, holding the fixed message that instructs to
increase the `PROMPTFLOW_RESPONSE_TIMEOUT` configuration value; no envelope
field is present. -/
theorem c6_pf_none_timeout_error (history_metadata : JValue)
    (response_field_name citations_field_name : Text) (message_uuid : Option Text) :
    format_pf_non_streaming_response none history_metadata response_field_name
        citations_field_name message_uuid =
      [(str "error", JValue.jstr pfTimeoutMessage)] ∧
    (format_pf_non_streaming_response none history_metadata response_field_name
        citations_field_name message_uuid).map Prod.fst = [str "error"] :=
  ⟨rfl, rfl⟩

/-- C7 counterexample: on a failing stream the single emitted chunk is the
error JSON object with no trailing newline, so the claim's "also
newline-terminated per the line protocol" is false for the error line. -/
theorem c7_error_line_counterexample :
    format_as_ndjson { events := [], failure := some (str "boom") } =
        [jsonDumps (JValue.jobj [(str "error", JValue.jstr (str "boom"))])] ∧
      ∀ line ∈ format_as_ndjson { events := [], failure := some (str "boom") },
        line.getLast? ≠ some 10 := by
  constructor
  · rfl
  · decide

/-- C7 (amended): `format_as_ndjson` emits one newline-terminated
`json.dumps` line per event in strict input order; when producing an event
raises, it emits exactly one final chunk `json.dumps({"error": msg})` after
the normal lines and terminates — but that final error chunk is not
newline-terminated (it ends with the closing brace, 125). -/
theorem c7_ndjson_order_and_error_line (r : EventStream) :
    (r.failure = none →
      format_as_ndjson r = r.events.map fun event => jsonDumps event ++ [10]) ∧
    (∀ line ∈ r.events.map fun event => jsonDumps event ++ [10],
      line.getLast? = some 10) ∧
    (∀ msg, r.failure = some msg →
      format_as_ndjson r =
        (r.events.map fun event => jsonDumps event ++ [10]) ++
          [jsonDumps (JValue.jobj [(str "error", JValue.jstr msg)])] ∧
      (jsonDumps (JValue.jobj [(str "error", JValue.jstr msg)])).getLast? = some 125) := by
  refine ⟨?_, ?_, ?_⟩
  · intro h
    simp [format_as_ndjson, h]
  · intro line hline
    simp only [List.mem_map] at hline
    obtain ⟨e, _, he⟩ := hline
    rw [← he, List.getLast?_concat]
  · intro msg h
    constructor
    · simp [format_as_ndjson, h]
    · rw [show jsonDumps (JValue.jobj [(str "error", JValue.jstr msg)]) =
          (123 :: jsonDumpsFields [(str "error", JValue.jstr msg)]) ++ [125] from by
        simp [jsonDumps]]
      rw [List.getLast?_concat]

/-- Witness for C7's amended claim at a concrete failing stream. -/
theorem c7_ndjson_order_and_error_line_witness :
    format_as_ndjson { events := [JValue.jnull], failure := some (str "x") } =
        [jsonDumps JValue.jnull ++ [10],
         jsonDumps (JValue.jobj [(str "error", JValue.jstr (str "x"))])] ∧
      (jsonDumps (JValue.jobj [(str "error", JValue.jstr (str "x"))])).getLast? =
        some 125 := by
  have h := (c7_ndjson_order_and_error_line
    { events := [JValue.jnull], failure := some (str "x") }).2.2 (str "x") rfl
  simpa using h

/-- A successful promptflow `try` block always yields the six-key envelope
dict in source order. -/
theorem pfTryBody_shape (completion : JObj) (history_metadata : JValue)
    (response_field_name citations_field_name : Text) (obj : JObj)
    (h : pfTryBody completion history_metadata response_field_name citations_field_name =
      some obj) :
    ∃ idv choicesv,
      obj =
        [(str "id", idv), (str "model", JValue.jstr []), (str "created", JValue.jstr []),
         (str "object", JValue.jstr []), (str "history_metadata", history_metadata),
         (str "choices", choicesv)] := by
  unfold pfTryBody at h
  cases hf : dictFind completion response_field_name with
  | none =>
    rw [hf] at h
    cases hid : dictFind completion (str "id") with
    | none =>
      rw [hid] at h
      simp at h
    | some idv =>
      rw [hid] at h
      simp at h
      exact ⟨idv, _, h.symm⟩
  | some v =>
    cases v <;> rw [hf] at h <;> simp at h
    case jstr s =>
      cases hid : dictFind completion (str "id") with
      | none =>
        rw [hid] at h
        simp at h
      | some idv =>
        rw [hid] at h
        simp at h
        exact ⟨idv, _, h.symm⟩

/-- C8: every formatting / normalization function is total and returns only
data: the native formatters return the empty object or an envelope, the
promptflow formatter returns the empty dict, an error dict, or the
six-field envelope (every internal exception is caught), and the input
adapter always returns a turn list. -/
theorem c8_formatters_never_raise :
    (∀ (chatCompletion : ChatCompletion) (hm rid : JValue),
        format_non_streaming_response chatCompletion hm rid = none ∨
          ∃ env, format_non_streaming_response chatCompletion hm rid = some env) ∧
    (∀ (chunk : ChatCompletionChunk) (hm rid : JValue),
        format_stream_response chunk hm rid = none ∨
          ∃ env, format_stream_response chunk hm rid = some env) ∧
    (∀ (chatCompletion : Option JObj) (hm : JValue) (rfn cfn : Text)
        (uuid : Option Text),
        format_pf_non_streaming_response chatCompletion hm rfn cfn uuid = [] ∨
          (∃ v, format_pf_non_streaming_response chatCompletion hm rfn cfn uuid =
            [(str "error", v)]) ∨
          ∃ idv choicesv,
            format_pf_non_streaming_response chatCompletion hm rfn cfn uuid =
              [(str "id", idv), (str "model", JValue.jstr []),
               (str "created", JValue.jstr []), (str "object", JValue.jstr []),
               (str "history_metadata", hm), (str "choices", choicesv)]) ∧
    (∀ (input_json : PFInputJson) (rfn rsn : Text),
        ∃ turns, convert_to_pf_format input_json rfn rsn = turns) := by
  refine ⟨?_, ?_, ?_, ?_⟩
  · intro cc hm rid
    cases h : format_non_streaming_response cc hm rid with
    | none => exact Or.inl rfl
    | some env => exact Or.inr ⟨env, rfl⟩
  · intro ch hm rid
    cases h : format_stream_response ch hm rid with
    | none => exact Or.inl rfl
    | some env => exact Or.inr ⟨env, rfl⟩
  · intro cc hm rfn cfn uuid
    cases cc with
    | none => exact Or.inr (Or.inl ⟨JValue.jstr pfTimeoutMessage, rfl⟩)
    | some completion =>
      by_cases hc : dictContains completion (str "error") = true
      · refine Or.inr (Or.inl ⟨(dictFind completion (str "error")).getD JValue.jnull, ?_⟩)
        simp [format_pf_non_streaming_response, hc]
      · cases ht : pfTryBody completion hm rfn cfn with
        | none =>
          refine Or.inl ?_
          simp [format_pf_non_streaming_response, hc, ht]
        | some obj =>
          obtain ⟨idv, cv, hobj⟩ := pfTryBody_shape completion hm rfn cfn obj ht
          refine Or.inr (Or.inr ⟨idv, cv, ?_⟩)
          rw [← hobj]
          simp [format_pf_non_streaming_response, hc, ht]
  · intro ij rfn rsn
    exact ⟨_, rfl⟩

/-- C9 counterexample: with the permitted-groups column environment variable
absent, the f-string interpolates Python's `str(None)`, so the filter's
prefix is the four characters `None` and not the empty string the claim
asserts (39 is the apostrophe). -/
theorem c9_absent_column_counterexample :
    generateFilterString none [] =
        str "None/any(g:search.in(g, " ++ [39, 39] ++ str "))" ∧
      generateFilterString none [] ≠ str "/any(g:search.in(g, " ++ [39, 39] ++ str "))" := by
  constructor
  · decide
  · decide

/-- C9 (amended): for every group list and column configuration the filter
is exactly `str(column) ++ "/any(g:search.in(g, '<ids joined by comma
space>'))"`; an empty group list still renders the filter with an empty id
list; an empty-string column yields an empty prefix, while an absent
column yields the literal prefix `None`. -/
theorem c9_generateFilterString_format (permitted_groups_column : Option Text)
    (userGroups : List GroupObj) :
    generateFilterString permitted_groups_column userGroups =
        pyStrOfColumn permitted_groups_column ++ str "/any(g:search.in(g, " ++ [39] ++
          List.intercalate (str ", ") (userGroups.map GroupObj.id) ++ [39] ++ str "))" ∧
      pyStrOfColumn (some []) = [] ∧
      pyStrOfColumn none = str "None" ∧
      generateFilterString (some []) userGroups =
        str "/any(g:search.in(g, " ++ [39] ++
          List.intercalate (str ", ") (userGroups.map GroupObj.id) ++ [39] ++ str "))" := by
  refine ⟨?_, rfl, rfl, ?_⟩ <;> simp [generateFilterString, pyStrOfColumn]
